import Mathlib

/-
Verification of the execution-run orchestrator
(validator/server_arb/execution_run.go).

The orchestrator binds a checkpointed machine cache to a task scope and
answers step/proof queries asynchronously.  We embed the Go code
shallowly: the cache is a record of lookup functions returning
`Except GoError MachineInterface` (the Go `(machine, err)` pair), and a
query's promise resolution is the `Except` value the spawned task would
produce.  Opaque collaborator values (global state, hashes, proof bytes)
are represented by `Nat` / `List Nat` stand-ins; only their equality is
ever used, matching their opaque role in the source.
-/

namespace NitroExecRun

/-- Opaque global-state value carried by a machine (comparison only). -/
abbrev GlobalState := Nat

/-- Opaque content-addressed digest of a machine state. -/
abbrev MachineHash := Nat

/-- Go `error` values produced in this subsystem.  `wrongPosition` embeds
the `fmt.Errorf("machine is in wrong position want: %d, got: %d", ...)`
consistency error of `consumeMachine`; `rangeError` is the invalid-range
failure of the spec; `other` stands for any other propagated error. -/
inductive GoError where
  | wrongPosition (want got : Nat)
  | rangeError
  | other (code : Nat)
deriving DecidableEq, Repr

/-- The `MachineInterface` capability as consumed by execution_run.go:
step count, running flag, status code, global state, hash, and the proof
blob `ProveNextStep` would return.  Mutating methods are not used by the
orchestrator code under verification. -/
structure MachineInterface where
  GetStepCount : Nat
  IsRunning : Bool
  Status : Nat
  GetGlobalState : GlobalState
  Hash : MachineHash
  ProveNextStep : List Nat
deriving DecidableEq, Repr

/-- `validator.MachineStepResult`: the snapshot produced per query. -/
structure MachineStepResult where
  Position : Nat
  Status : Nat
  GlobalState : GlobalState
  Hash : MachineHash
deriving DecidableEq, Repr

/-- The `MachineCache` as consumed by execution_run.go: each lookup is the
Go `(machine, err)` result pair, embedded as `Except`.  The cache itself
lives outside the verified source, so it is abstract here: any pair of
lookup functions is a cache. -/
structure MachineCache where
  GetMachineAt : Nat → Except GoError MachineInterface
  GetFinalMachine : Except GoError MachineInterface

/-- The `executionRun` struct: it owns one (replaceable) cache. -/
structure executionRun where
  cache : MachineCache

/-- The all-ones uint64 sentinel `^uint64(0)`, denoting run-to-completion. -/
def UINT64MAX : Nat := 2 ^ 64 - 1

/-- `consumeMachine` from execution_run.go: resolve a step query's promise
from the cache lookup result.  An incoming error propagates; otherwise the
position-consistency check fires when the requested position differs from
the machine's step count and the machine is still running or overshot;
otherwise the step result is produced from the machine. -/
def consumeMachine (reqPosition : Nat) (res : Except GoError MachineInterface) :
    Except GoError MachineStepResult :=
  match res with
  | .error err => .error err
  | .ok machine =>
    let machineStep := machine.GetStepCount
    if reqPosition ≠ machineStep then
      let machineRunning := machine.IsRunning
      if (machineRunning = true ∧ reqPosition ≠ machineStep) ∨ machineStep > reqPosition then
        .error (.wrongPosition reqPosition machine.GetStepCount)
      else
        .ok ⟨machineStep, machine.Status, machine.GetGlobalState, machine.Hash⟩
    else
      .ok ⟨machineStep, machine.Status, machine.GetGlobalState, machine.Hash⟩

/-- `GetStepAt` from execution_run.go: the sentinel position is served by
`GetFinalMachine`, any other position by `GetMachineAt`; either way the
lookup result is handed to `consumeMachine`. -/
def GetStepAt (e : executionRun) (position : Nat) : Except GoError MachineStepResult :=
  if position = UINT64MAX then
    consumeMachine position e.cache.GetFinalMachine
  else
    consumeMachine position (e.cache.GetMachineAt position)

/-- `GetProofAt` from execution_run.go: look the machine up at the given
position and, on success, produce its `ProveNextStep` bytes; on failure
propagate the lookup error. -/
def GetProofAt (e : executionRun) (position : Nat) : Except GoError (List Nat) :=
  match e.cache.GetMachineAt position with
  | .error err => .error err
  | .ok machine => .ok machine.ProveNextStep

/-- `GetLastStep` from execution_run.go: `GetStepAt` at the sentinel. -/
def GetLastStep (e : executionRun) : Except GoError MachineStepResult :=
  GetStepAt e UINT64MAX

/-- Modelled from the spec: `SpawnCacheWithLimits` (`spawnWithRange`) is
defined in the machine-cache component, which is outside the verified
source.  Per the spec it requires `start ≤ end` and fails with a range
error otherwise; since the Go signature returns only a cache (no error
value), the failure is embedded as a cache whose every lookup yields the
range error.  For a valid range the new cache serves positions within
`[start, end]` from the parent's states and rejects others as
out-of-range. -/
def SpawnCacheWithLimits (c : MachineCache) (start end' : Nat) : MachineCache :=
  if start > end' then
    ⟨fun _ => .error .rangeError, .error .rangeError⟩
  else
    ⟨fun p => if start ≤ p ∧ p ≤ end' then c.GetMachineAt p else .error .rangeError,
     c.GetFinalMachine⟩

/-- `PrepareRange` from execution_run.go: unconditionally replace the
run's active cache with the freshly spawned range-restricted cache. -/
def PrepareRange (e : executionRun) (start end' : Nat) : executionRun :=
  ⟨SpawnCacheWithLimits e.cache start end'⟩

/-! Concrete machines and caches used by witnesses and counterexamples. -/

/-- A machine reporting step count 7 while still running. -/
def machOvershoot : MachineInterface := ⟨7, true, 0, 11, 22, [1, 2, 3]⟩

/-- A machine halted (Finished, status code 1) at step 10. -/
def machHalted10 : MachineInterface := ⟨10, false, 1, 33, 44, [4, 5]⟩

/-- A machine running at exactly step 5. -/
def machRun5 : MachineInterface := ⟨5, true, 0, 55, 66, [7]⟩

/-- A cache answering every lookup with the overshooting machine. -/
def cacheOvershoot : MachineCache := ⟨fun _ => .ok machOvershoot, .ok machOvershoot⟩

/-- A cache answering every lookup with the halted machine. -/
def cacheHalted : MachineCache := ⟨fun _ => .ok machHalted10, .ok machHalted10⟩

/-- A cache answering every lookup with the running-at-5 machine. -/
def cacheRun5 : MachineCache := ⟨fun _ => .ok machRun5, .ok machRun5⟩

/-- A cache whose every lookup fails with a fixed error. -/
def cacheErr : MachineCache := ⟨fun _ => .error (.other 9), .error (.other 9)⟩

/-- A cache that fails every positional lookup but shares `cacheHalted`'s
final-machine lookup: the two differ exactly in `GetMachineAt`. -/
def cacheMixed : MachineCache := ⟨fun _ => .error (.other 9), .ok machHalted10⟩

/-- A cache with the overshooting machine at every position and a failing
final-machine lookup. -/
def cacheOvershootErrFinal : MachineCache :=
  ⟨fun _ => .ok machOvershoot, .error (.other 9)⟩

/-! ## Claims -/

/-- C1: for a non-sentinel position, if the cache's machine reports a step
count above the requested position, or reports running with a step count
different from it, `GetStepAt` resolves as Failed with the
position-consistency error and produces no `MachineStepResult`. -/
theorem getStepAt_overshoot_fails (e : executionRun) (position : Nat)
    (hpos : position ≠ UINT64MAX) (m : MachineInterface)
    (hlook : e.cache.GetMachineAt position = .ok m)
    (hbad : m.GetStepCount > position ∨ (m.IsRunning = true ∧ m.GetStepCount ≠ position)) :
    GetStepAt e position = .error (.wrongPosition position m.GetStepCount) := by
  have hne : position ≠ m.GetStepCount := by
    rcases hbad with h | ⟨_, h⟩
    · omega
    · exact fun hEq => h hEq.symm
  have hcond : (m.IsRunning = true ∧ position ≠ m.GetStepCount) ∨ m.GetStepCount > position := by
    rcases hbad with h | ⟨hr, _⟩
    · exact Or.inr h
    · exact Or.inl ⟨hr, hne⟩
  unfold GetStepAt
  rw [if_neg hpos, hlook]
  unfold consumeMachine
  simp only [if_pos hne, if_pos hcond]

/-- Witness for C1: a machine reporting step 7 while running, requested at
position 5, yields the position-consistency error. -/
theorem getStepAt_overshoot_fails_witness :
    GetStepAt ⟨cacheOvershoot⟩ 5 = .error (.wrongPosition 5 7) :=
  getStepAt_overshoot_fails ⟨cacheOvershoot⟩ 5 (by decide) machOvershoot rfl
    (Or.inl (by decide))

/-- C2: a machine halted at step `H ≤ p` (step count `H`, not running)
makes `GetStepAt p` resolve successfully with position `H` and the
machine's own status. -/
theorem getStepAt_halted_succeeds (e : executionRun) (p : Nat) (m : MachineInterface)
    (hlook : (if p = UINT64MAX then e.cache.GetFinalMachine
              else e.cache.GetMachineAt p) = .ok m)
    (hnotrun : m.IsRunning = false) (hle : m.GetStepCount ≤ p) :
    GetStepAt e p = .ok ⟨m.GetStepCount, m.Status, m.GetGlobalState, m.Hash⟩ := by
  have hcond : ¬ ((m.IsRunning = true ∧ p ≠ m.GetStepCount) ∨ m.GetStepCount > p) := by
    rintro (⟨hr, _⟩ | hgt)
    · rw [hnotrun] at hr; cases hr
    · omega
  have hres : consumeMachine p (.ok m) =
      .ok ⟨m.GetStepCount, m.Status, m.GetGlobalState, m.Hash⟩ := by
    by_cases hne : p = m.GetStepCount
    · simp only [consumeMachine, if_neg (fun hk : p ≠ m.GetStepCount => hk hne)]
    · simp only [consumeMachine, if_pos (hne : p ≠ m.GetStepCount), if_neg hcond]
  by_cases hp : p = UINT64MAX
  · rw [if_pos hp] at hlook
    unfold GetStepAt
    rw [if_pos hp, hlook, hres]
  · rw [if_neg hp] at hlook
    unfold GetStepAt
    rw [if_neg hp, hlook, hres]

/-- Witness for C2: machine halted at 10, requested at 20, yields a
success with position 10 and the machine's Finished status code. -/
theorem getStepAt_halted_succeeds_witness :
    GetStepAt ⟨cacheHalted⟩ 20 = .ok ⟨10, 1, 33, 44⟩ :=
  getStepAt_halted_succeeds ⟨cacheHalted⟩ 20 machHalted10 (by rfl) rfl (by decide)

/-- C3: two `GetStepAt` calls at the same position against the same cache
generation resolve to identical results, component by component.  The
determinism of the underlying machine is embedded by the cache being a
function of the position. -/
theorem getStepAt_deterministic (e : executionRun) (p : Nat) (r1 r2 : MachineStepResult)
    (h1 : GetStepAt e p = .ok r1) (h2 : GetStepAt e p = .ok r2) :
    r1 = r2 ∧ r1.Position = r2.Position ∧ r1.Status = r2.Status ∧
      r1.GlobalState = r2.GlobalState ∧ r1.Hash = r2.Hash := by
  rw [h1] at h2
  injection h2 with h
  subst h
  exact ⟨rfl, rfl, rfl, rfl, rfl⟩

/-- Witness for C3: two identical queries at position 20 on the halted
cache agree in every component. -/
theorem getStepAt_deterministic_witness :
    (⟨10, 1, 33, 44⟩ : MachineStepResult) = ⟨10, 1, 33, 44⟩ ∧
    (⟨10, 1, 33, 44⟩ : MachineStepResult).Position = MachineStepResult.Position ⟨10, 1, 33, 44⟩ ∧
    (⟨10, 1, 33, 44⟩ : MachineStepResult).Status = MachineStepResult.Status ⟨10, 1, 33, 44⟩ ∧
    (⟨10, 1, 33, 44⟩ : MachineStepResult).GlobalState =
      MachineStepResult.GlobalState ⟨10, 1, 33, 44⟩ ∧
    (⟨10, 1, 33, 44⟩ : MachineStepResult).Hash = MachineStepResult.Hash ⟨10, 1, 33, 44⟩ :=
  getStepAt_deterministic ⟨cacheHalted⟩ 20 ⟨10, 1, 33, 44⟩ ⟨10, 1, 33, 44⟩
    (by rfl) (by rfl)

/-- C4: a sentinel-position query is answered through `GetFinalMachine`,
not `GetMachineAt`: it equals `consumeMachine` of the final-machine
lookup, and two caches agreeing on `GetFinalMachine` answer it alike no
matter how their `GetMachineAt` differ. -/
theorem getStepAt_sentinel_uses_final (c1 c2 : MachineCache)
    (hfin : c1.GetFinalMachine = c2.GetFinalMachine) :
    GetStepAt ⟨c1⟩ UINT64MAX = consumeMachine UINT64MAX c1.GetFinalMachine ∧
    GetStepAt ⟨c1⟩ UINT64MAX = GetStepAt ⟨c2⟩ UINT64MAX := by
  refine ⟨?_, ?_⟩ <;> simp [GetStepAt, hfin]

/-- Witness for C4: `cacheHalted` and `cacheMixed` share the final-machine
lookup but have different position lookups; the sentinel query agrees. -/
theorem getStepAt_sentinel_uses_final_witness :
    GetStepAt ⟨cacheHalted⟩ UINT64MAX =
      consumeMachine UINT64MAX cacheHalted.GetFinalMachine ∧
    GetStepAt ⟨cacheHalted⟩ UINT64MAX = GetStepAt ⟨cacheMixed⟩ UINT64MAX :=
  getStepAt_sentinel_uses_final cacheHalted cacheMixed rfl

/-- C5: every lookup error resolves the query's Future as Failed carrying
that error — in `GetStepAt` for both the positional and the sentinel
branch, and in `GetProofAt` — and the `Except` result excludes any
accompanying success value. -/
theorem query_error_propagates (e : executionRun) (p : Nat) (err : GoError) :
    (p ≠ UINT64MAX → e.cache.GetMachineAt p = .error err →
      GetStepAt e p = .error err) ∧
    (e.cache.GetFinalMachine = .error err → GetStepAt e UINT64MAX = .error err) ∧
    (e.cache.GetMachineAt p = .error err → GetProofAt e p = .error err) := by
  refine ⟨fun hp h => ?_, fun h => ?_, fun h => ?_⟩
  · unfold GetStepAt
    rw [if_neg hp, h]
    rfl
  · unfold GetStepAt
    rw [if_pos rfl, h]
    rfl
  · unfold GetProofAt
    rw [h]

/-- Witness for C5: a cache whose lookups fail with `other 9` makes every
query fail with exactly that error. -/
theorem query_error_propagates_witness :
    GetStepAt ⟨cacheErr⟩ 4 = .error (.other 9) ∧
    GetProofAt ⟨cacheErr⟩ 4 = .error (.other 9) ∧
    GetStepAt ⟨cacheErr⟩ UINT64MAX = .error (.other 9) :=
  ⟨(query_error_propagates ⟨cacheErr⟩ 4 (.other 9)).1 (by decide) rfl,
   (query_error_propagates ⟨cacheErr⟩ 4 (.other 9)).2.2 rfl,
   (query_error_propagates ⟨cacheErr⟩ 4 (.other 9)).2.1 rfl⟩

/-- C6 counterexample: `PrepareRange` with `start > end` does not leave
the active cache unchanged — at start 5, end 3 on a healthy cache the
replaced cache answers position 0 with the range error where the old
cache answered with a machine, so the caches differ. -/
theorem prepareRange_replaces_cache_counterexample :
    (PrepareRange ⟨cacheHalted⟩ 5 3).cache.GetMachineAt 0 = .error .rangeError ∧
    cacheHalted.GetMachineAt 0 = .ok machHalted10 ∧
    (PrepareRange ⟨cacheHalted⟩ 5 3).cache ≠ cacheHalted := by
  refine ⟨rfl, rfl, fun h => ?_⟩
  have h0 := congrArg (fun c => c.GetMachineAt 0) h
  have h1 : (Except.error GoError.rangeError : Except GoError MachineInterface) =
      Except.ok machHalted10 := h0
  exact Except.noConfusion h1

/-- C6 amended: `PrepareRange` with `start > end` unconditionally installs
the spawned invalid-range cache, and the range error surfaces on every
subsequent query against it rather than from `PrepareRange` itself. -/
theorem prepareRange_invalid_range (e : executionRun) (start end' p : Nat)
    (h : start > end') :
    (PrepareRange e start end').cache = SpawnCacheWithLimits e.cache start end' ∧
    GetStepAt (PrepareRange e start end') p = .error .rangeError ∧
    GetProofAt (PrepareRange e start end') p = .error .rangeError := by
  refine ⟨rfl, ?_, ?_⟩ <;>
    by_cases hp : p = UINT64MAX <;>
      simp [GetStepAt, GetProofAt, PrepareRange, SpawnCacheWithLimits,
        consumeMachine, if_pos h, hp]

/-- Witness for C6's amended theorem at start 5, end 3, position 0. -/
theorem prepareRange_invalid_range_witness :
    (PrepareRange ⟨cacheHalted⟩ 5 3).cache = SpawnCacheWithLimits cacheHalted 5 3 ∧
    GetStepAt (PrepareRange ⟨cacheHalted⟩ 5 3) 0 = .error .rangeError ∧
    GetProofAt (PrepareRange ⟨cacheHalted⟩ 5 3) 0 = .error .rangeError :=
  prepareRange_invalid_range ⟨cacheHalted⟩ 5 3 0 (by decide)

/-- C7: `GetLastStep` is definitionally `GetStepAt` at the sentinel
position — the same operation with the same resolution behaviour. -/
theorem getLastStep_is_getStepAt_sentinel (e : executionRun) :
    GetLastStep e = GetStepAt e UINT64MAX := rfl

/-- C8: `GetProofAt` fulfils its Future with exactly the looked-up
machine's `ProveNextStep` bytes on success, and with the lookup error on
failure (the error branch never consults `ProveNextStep`). -/
theorem getProofAt_spec (e : executionRun) (p : Nat) :
    (∀ m : MachineInterface, e.cache.GetMachineAt p = .ok m →
      GetProofAt e p = .ok m.ProveNextStep) ∧
    (∀ err : GoError, e.cache.GetMachineAt p = .error err →
      GetProofAt e p = .error err) := by
  constructor <;> intro x hx <;> unfold GetProofAt <;> rw [hx]

/-- Witness for C8: the halted machine's proof bytes are returned
verbatim. -/
theorem getProofAt_spec_witness :
    GetProofAt ⟨cacheHalted⟩ 2 = .ok [4, 5] :=
  (getProofAt_spec ⟨cacheHalted⟩ 2).1 machHalted10 rfl

/-- C9: when the machine's step count equals the requested position,
`consumeMachine` produces a result and the consistency-error branch is
unreachable, with no assumption on whether the machine is running. -/
theorem consumeMachine_exact_position (p : Nat) (m : MachineInterface)
    (h : m.GetStepCount = p) :
    consumeMachine p (.ok m) = .ok ⟨p, m.Status, m.GetGlobalState, m.Hash⟩ := by
  subst h
  unfold consumeMachine
  simp only [if_neg (fun hne : m.GetStepCount ≠ m.GetStepCount => hne rfl)]

/-- Witness for C9: a machine still running at exactly step 5 produces a
result at requested position 5. -/
theorem consumeMachine_exact_position_witness :
    consumeMachine 5 (.ok machRun5) = .ok ⟨5, 0, 55, 66⟩ :=
  consumeMachine_exact_position 5 machRun5 rfl

/-- C10: `GetProofAt` has no sentinel special case and no consistency
validation: its result at every position, the sentinel included, depends
only on `GetMachineAt` (never `GetFinalMachine`), and any machine the
lookup returns — even one overshooting or still running — yields its
proof bytes unconditionally. -/
theorem getProofAt_sentinel_no_validation (c1 c2 : MachineCache) (p : Nat)
    (hat : c1.GetMachineAt = c2.GetMachineAt) (m : MachineInterface)
    (hlook : c1.GetMachineAt p = .ok m) :
    GetProofAt ⟨c1⟩ p = GetProofAt ⟨c2⟩ p ∧
    GetProofAt ⟨c1⟩ p = .ok m.ProveNextStep := by
  constructor
  · unfold GetProofAt
    rw [hat]
  · unfold GetProofAt
    rw [hlook]

/-- Witness for C10: at the sentinel position, with a running machine
reporting step 7, the proof query ignores the (failing) final-machine
lookup and succeeds with the machine's proof bytes. -/
theorem getProofAt_sentinel_no_validation_witness :
    GetProofAt ⟨cacheOvershoot⟩ UINT64MAX = GetProofAt ⟨cacheOvershootErrFinal⟩ UINT64MAX ∧
    GetProofAt ⟨cacheOvershoot⟩ UINT64MAX = .ok [1, 2, 3] :=
  getProofAt_sentinel_no_validation cacheOvershoot cacheOvershootErrFinal UINT64MAX rfl
    machOvershoot rfl

end NitroExecRun
